import Mathlib

/-!
Verification development for the doc-matcher compliance-checking backend.

The definitions below are a shallow embedding of the Python sources:

* `src/backend/services.py` — `update_task`, `load_existing_guidelines`,
  `process_compliance_check` (the orchestration routine);
* `src/backend/hybrid_fixed_checklist_checker.py` —
  `HybridFixedChecklistChecker.process_document` and
  `_build_report_vectorstore` (only as far as they execute, see below);
* `src/backend/routers/tasks.py` — `start_match` (validation/creation part),
  `cancel_task`, `stream_task_status.event_generator`.

The document-supplied flow makes exactly one collaborator call — the
`asyncio.to_thread` await of `_build_report_vectorstore`.  The first
statement of that build calls `PDFExtractor.extract_pdf_by_pages` with the
keyword argument `progress_callback`
(`hybrid_fixed_checklist_checker.py` lines 213–214), but the extractor
(`pdf_compliance_checker.py` line 94) accepts only
`(pdf_path, start_page, end_page)`, so every document-supplied run raises
`TypeError` inside that await and the per-requirement loop, the durable
record write and the `completed` event of that flow are unreachable; the
embedding reflects this.  CPython's binary64 floating-point arithmetic,
which the guideline-only flow's progress formula `int((i / total) * 90)`
uses, is embedded exactly as round-to-nearest, ties-to-even over the
rationals (all quantities that occur stay inside the normal range of
binary64, so no subnormal or overflow handling is needed).
-/

namespace DocMatcher

/-! ## Exact binary64 arithmetic

CPython computes `i / total` as the correctly rounded binary64 quotient of the
two integers, multiplies by an exactly representable small integer with correct
rounding, and `int(...)` truncates toward zero.  We model a binary64 value by
the exact rational it denotes and implement round-to-nearest-even onto a 53-bit
significand. -/

/-- Structural-fuel bit length: `bitLenAux fuel n` is the number of binary
digits of `n`, provided `n ≤ fuel`. -/
def bitLenAux : ℕ → ℕ → ℕ
  | 0, _ => 0
  | fuel + 1, n => if n = 0 then 0 else bitLenAux fuel (n / 2) + 1

/-- Number of binary digits of `n`. -/
def bitLen (n : ℕ) : ℕ := bitLenAux n n

/-- Structural-fuel binary logarithm: for `0 < d ≤ n` (and enough fuel),
`log2Aux fuel n d` is the floor of the base-2 logarithm of `n / d`. -/
def log2Aux : ℕ → ℕ → ℕ → ℕ
  | 0, _, _ => 0
  | fuel + 1, n, d => if n < 2 * d then 0 else log2Aux fuel n (2 * d) + 1

/-- Floor of the base-2 logarithm of a positive rational (`0` on `q ≤ 0`). -/
def ratExpFloor (q : ℚ) : ℤ :=
  if q ≤ 0 then 0
  else
    let n := q.num.toNat
    let d := q.den
    (log2Aux (bitLen d + bitLen n + 1) (n * 2 ^ bitLen d) d : ℤ) - bitLen d

/-- Round a rational to an integer, half to even (IEEE 754 default). -/
def rhe (q : ℚ) : ℤ :=
  if q - ⌊q⌋ < 1 / 2 then ⌊q⌋
  else if 1 / 2 < q - ⌊q⌋ then ⌊q⌋ + 1
  else if ⌊q⌋ % 2 = 0 then ⌊q⌋ else ⌊q⌋ + 1

/-- Round a nonnegative rational to the nearest binary64 value (as an exact
rational): round-to-nearest, ties-to-even, 53-bit significand.  Nonpositive
arguments (never produced by the embedded code) map to `0`. -/
def roundDouble (q : ℚ) : ℚ :=
  if q ≤ 0 then 0
  else (rhe (q * 2 ^ ((52 : ℤ) - ratExpFloor q)) : ℚ) * 2 ^ (ratExpFloor q - 52)

/-- Python `int(...)` on a float: truncation toward zero. -/
def pyInt (q : ℚ) : ℤ := if 0 ≤ q then ⌊q⌋ else -⌊-q⌋

/-- Binary64 result of Python `i / total` on nonnegative integers
(`0` when `total = 0`; the embedded code never divides by zero). -/
def floatDiv (i total : ℕ) : ℚ := roundDouble ((i : ℚ) / (total : ℚ))

/-- Python `int((i / total) * m)` in binary64 arithmetic: correctly rounded
quotient, correctly rounded product with the exactly representable `m`,
truncated toward zero. -/
def scaledProgress (m i total : ℕ) : ℤ := pyInt (roundDouble (floatDiv i total * (m : ℚ)))

/-! ### Correctness of the binary64 rounding machinery -/

theorem bitLenAux_lt : ∀ fuel n, n ≤ fuel → n < 2 ^ bitLenAux fuel n := by
  intro fuel
  induction fuel with
  | zero =>
    intro n hn
    have : n = 0 := Nat.le_zero.mp hn
    simp [bitLenAux, this]
  | succ f ih =>
    intro n hn
    simp only [bitLenAux]
    split
    · omega
    · have hrec := ih (n / 2) (by omega)
      have hpow : 2 ^ (bitLenAux f (n / 2) + 1) = 2 ^ bitLenAux f (n / 2) * 2 := by ring
      omega

theorem bitLen_lt (n : ℕ) : n < 2 ^ bitLen n := bitLenAux_lt n n le_rfl

theorem log2Aux_spec : ∀ fuel n d, 0 < d → d ≤ n → n < 2 ^ fuel * d →
    2 ^ log2Aux fuel n d * d ≤ n ∧ n < 2 ^ (log2Aux fuel n d + 1) * d := by
  intro fuel
  induction fuel with
  | zero =>
    intro n d hd hdn hlt
    simp only [pow_zero, one_mul] at hlt
    omega
  | succ f ih =>
    intro n d hd hdn hlt
    simp only [log2Aux]
    split
    · constructor
      · simpa using hdn
      · simpa [pow_succ] using (by omega : n < 2 * d)
    · have h2d : 2 * d ≤ n := by omega
      have hlt2 : n < 2 ^ f * (2 * d) := by
        have : 2 ^ (f + 1) * d = 2 ^ f * (2 * d) := by ring
        omega
      obtain ⟨h1, h2⟩ := ih n (2 * d) (by omega) h2d hlt2
      constructor
      · have : 2 ^ (log2Aux f n (2 * d) + 1) * d = 2 ^ log2Aux f n (2 * d) * (2 * d) := by ring
        omega
      · have : 2 ^ (log2Aux f n (2 * d) + 1 + 1) * d = 2 ^ (log2Aux f n (2 * d) + 1) * (2 * d) := by
          ring
        omega

theorem ratExpFloor_spec (q : ℚ) (hq : 0 < q) :
    (2 : ℚ) ^ ratExpFloor q ≤ q ∧ q < 2 ^ (ratExpFloor q + 1) := by
  have hqle : ¬ q ≤ 0 := not_le.mpr hq
  have hnum : 0 < q.num := Rat.num_pos.mpr hq
  set n := q.num.toNat with hn
  set d := q.den with hd
  have hn0 : 0 < n := by omega
  have hd0 : 0 < d := q.den_pos
  have hq_eq : q = (n : ℚ) / (d : ℚ) := by
    have h1 : ((n : ℕ) : ℚ) = ((q.num : ℤ) : ℚ) := by
      rw [hn]
      exact_mod_cast congrArg (fun z : ℤ => (z : ℚ)) (Int.toNat_of_nonneg hnum.le)
    rw [h1, hd, Rat.num_div_den]
  set F := bitLen d with hF
  have hdF : d < 2 ^ F := bitLen_lt d
  have hnB : n < 2 ^ bitLen n := bitLen_lt n
  have hfuel : n * 2 ^ F < 2 ^ (F + bitLen n + 1) * d := by
    have h1 : n * 2 ^ F < 2 ^ bitLen n * 2 ^ F :=
      Nat.mul_lt_mul_of_lt_of_le hnB le_rfl (by positivity)
    have h2 : 2 ^ bitLen n * 2 ^ F ≤ 2 ^ (F + bitLen n + 1) * d := by
      have hpω : 2 ^ (F + bitLen n + 1) = 2 ^ bitLen n * 2 ^ F * 2 := by ring
      calc 2 ^ bitLen n * 2 ^ F
          ≤ 2 ^ bitLen n * 2 ^ F * 2 * d := by
            have h0 : 0 < 2 ^ bitLen n * 2 ^ F := by positivity
            nlinarith
        _ = 2 ^ (F + bitLen n + 1) * d := by rw [hpω]
    omega
  have hdn : d ≤ n * 2 ^ F := by
    have : 2 ^ F ≤ n * 2 ^ F := Nat.le_mul_of_pos_left _ hn0
    omega
  obtain ⟨k1, k2⟩ := log2Aux_spec (F + bitLen n + 1) (n * 2 ^ F) d hd0 hdn hfuel
  set E := log2Aux (F + bitLen n + 1) (n * 2 ^ F) d with hE
  have hef : ratExpFloor q = (E : ℤ) - F := by
    rw [ratExpFloor, if_neg hqle]
  rw [hef, hq_eq]
  have h2F : (0 : ℚ) < ((2 ^ F : ℕ) : ℚ) := by positivity
  have hdQ : (0 : ℚ) < (d : ℚ) := by exact_mod_cast hd0
  have hzpow : ∀ a : ℕ, (2 : ℚ) ^ ((a : ℤ) - F) = ((2 ^ a : ℕ) : ℚ) / ((2 ^ F : ℕ) : ℚ) := by
    intro a
    rw [zpow_sub₀ (by norm_num : (2 : ℚ) ≠ 0), zpow_natCast, zpow_natCast, div_eq_mul_inv]
    push_cast
    ring
  constructor
  · rw [hzpow E, div_le_div_iff h2F hdQ]
    exact_mod_cast Nat.mul_le_mul_left 1 k1 |>.trans_eq (by ring) |>.trans_eq' (by ring)
  · have : ((E : ℤ) - F) + 1 = ((E + 1 : ℕ) : ℤ) - F := by push_cast; ring
    rw [this, hzpow (E + 1), div_lt_div_iff hdQ h2F]
    exact_mod_cast k2

theorem rhe_ge_floor (q : ℚ) : ⌊q⌋ ≤ rhe q := by
  unfold rhe; split_ifs <;> omega

theorem rhe_le_floor_add_one (q : ℚ) : rhe q ≤ ⌊q⌋ + 1 := by
  unfold rhe; split_ifs <;> omega

theorem rhe_mono {a b : ℚ} (h : a ≤ b) : rhe a ≤ rhe b := by
  have hf : ⌊a⌋ ≤ ⌊b⌋ := Int.floor_le_floor h
  by_cases heq : ⌊a⌋ = ⌊b⌋
  · have hcast : ((⌊a⌋ : ℤ) : ℚ) = ((⌊b⌋ : ℤ) : ℚ) := by exact_mod_cast heq
    have hfr : a - ⌊a⌋ ≤ b - ⌊b⌋ := by rw [hcast]; linarith
    unfold rhe
    split_ifs <;> try omega
    all_goals (exfalso; linarith)
  · have hlt : ⌊a⌋ < ⌊b⌋ := lt_of_le_of_ne hf heq
    have h1 := rhe_le_floor_add_one a
    have h2 := rhe_ge_floor b
    omega

theorem roundDouble_nonneg (q : ℚ) : 0 ≤ roundDouble q := by
  unfold roundDouble
  split_ifs with h
  · exact le_refl 0
  · push_neg at h
    have hx : (0 : ℚ) < q * 2 ^ ((52 : ℤ) - ratExpFloor q) := by
      have : (0 : ℚ) < (2 : ℚ) ^ ((52 : ℤ) - ratExpFloor q) := by positivity
      exact mul_pos h this
    have hfl : (0 : ℤ) ≤ ⌊q * 2 ^ ((52 : ℤ) - ratExpFloor q)⌋ := Int.floor_nonneg.mpr hx.le
    have hr := rhe_ge_floor (q * 2 ^ ((52 : ℤ) - ratExpFloor q))
    have : (0 : ℚ) ≤ (rhe (q * 2 ^ ((52 : ℤ) - ratExpFloor q)) : ℚ) := by exact_mod_cast by omega
    exact mul_nonneg this (by positivity)

theorem roundDouble_bounds {q : ℚ} (hq : 0 < q) :
    (2 : ℚ) ^ ratExpFloor q ≤ roundDouble q ∧ roundDouble q ≤ 2 ^ (ratExpFloor q + 1) := by
  obtain ⟨hl, hu⟩ := ratExpFloor_spec q hq
  set e := ratExpFloor q with he
  set x := q * 2 ^ ((52 : ℤ) - e) with hx
  have hmul : ∀ a b : ℤ, (2 : ℚ) ^ a * 2 ^ b = 2 ^ (a + b) := by
    intro a b; rw [← zpow_add₀ (by norm_num : (2 : ℚ) ≠ 0)]
  have hx52 : (2 : ℚ) ^ (52 : ℤ) ≤ x := by
    calc (2 : ℚ) ^ (52 : ℤ) = 2 ^ e * 2 ^ ((52 : ℤ) - e) := by rw [hmul]; congr 1; ring
      _ ≤ x := by
        rw [hx]
        exact mul_le_mul_of_nonneg_right hl (by positivity)
  have hx53 : x < (2 : ℚ) ^ (53 : ℤ) := by
    calc x < 2 ^ (e + 1) * 2 ^ ((52 : ℤ) - e) := by
          rw [hx]
          exact mul_lt_mul_of_pos_right hu (by positivity)
      _ = (2 : ℚ) ^ (53 : ℤ) := by rw [hmul]; congr 1; ring
  have hfl_lo : (2 ^ 52 : ℤ) ≤ ⌊x⌋ := by
    apply Int.le_floor.mpr
    calc ((2 ^ 52 : ℤ) : ℚ) = (2 : ℚ) ^ (52 : ℤ) := by push_cast; norm_num
      _ ≤ x := hx52
  have hfl_hi : ⌊x⌋ < (2 ^ 53 : ℤ) := by
    apply Int.floor_lt.mpr
    calc x < (2 : ℚ) ^ (53 : ℤ) := hx53
      _ = ((2 ^ 53 : ℤ) : ℚ) := by push_cast; norm_num
  have hr_lo := rhe_ge_floor x
  have hr_hi := rhe_le_floor_add_one x
  have hrd : roundDouble q = (rhe x : ℚ) * 2 ^ (e - 52) := by
    rw [roundDouble, if_neg (not_le.mpr hq)]
  constructor
  · rw [hrd]
    calc (2 : ℚ) ^ e = 2 ^ (52 : ℤ) * 2 ^ (e - 52) := by rw [hmul]; congr 1; ring
      _ ≤ (rhe x : ℚ) * 2 ^ (e - 52) := by
          apply mul_le_mul_of_nonneg_right _ (by positivity)
          calc (2 : ℚ) ^ (52 : ℤ) = ((2 ^ 52 : ℤ) : ℚ) := by push_cast; norm_num
            _ ≤ (rhe x : ℚ) := by exact_mod_cast by omega
  · rw [hrd]
    have hstep : (rhe x : ℚ) ≤ (2 : ℚ) ^ (53 : ℤ) := by
      have h1 : (rhe x : ℚ) ≤ ((2 ^ 53 : ℤ) : ℚ) := by exact_mod_cast by omega
      have h2 : ((2 ^ 53 : ℤ) : ℚ) = (2 : ℚ) ^ (53 : ℤ) := by push_cast; norm_num
      rw [h2] at h1; exact h1
    calc (rhe x : ℚ) * 2 ^ (e - 52) ≤ 2 ^ (53 : ℤ) * 2 ^ (e - 52) :=
        mul_le_mul_of_nonneg_right hstep (by positivity)
      _ = 2 ^ (e + 1) := by rw [hmul]; congr 1; ring

theorem ratExpFloor_mono {a b : ℚ} (ha : 0 < a) (h : a ≤ b) :
    ratExpFloor a ≤ ratExpFloor b := by
  have hb : 0 < b := lt_of_lt_of_le ha h
  obtain ⟨la, _⟩ := ratExpFloor_spec a ha
  obtain ⟨_, ub⟩ := ratExpFloor_spec b hb
  have hlt : (2 : ℚ) ^ ratExpFloor a < 2 ^ (ratExpFloor b + 1) := lt_of_le_of_lt (la.trans h) ub
  have := (zpow_lt_zpow_iff_right₀ (by norm_num : (1 : ℚ) < 2)).mp hlt
  omega

theorem roundDouble_mono {a b : ℚ} (h : a ≤ b) : roundDouble a ≤ roundDouble b := by
  by_cases ha : a ≤ 0
  · rw [roundDouble, if_pos ha]
    exact roundDouble_nonneg b
  · push_neg at ha
    have hb : 0 < b := lt_of_lt_of_le ha h
    by_cases he : ratExpFloor a = ratExpFloor b
    · rw [roundDouble, roundDouble, if_neg (not_le.mpr ha), if_neg (not_le.mpr hb), he]
      apply mul_le_mul_of_nonneg_right _ (by positivity)
      have harg : a * 2 ^ ((52 : ℤ) - ratExpFloor b) ≤ b * 2 ^ ((52 : ℤ) - ratExpFloor b) :=
        mul_le_mul_of_nonneg_right h (by positivity)
      exact_mod_cast rhe_mono harg
    · have hlt : ratExpFloor a < ratExpFloor b :=
        lt_of_le_of_ne (ratExpFloor_mono ha h) he
      calc roundDouble a ≤ 2 ^ (ratExpFloor a + 1) := (roundDouble_bounds ha).2
        _ ≤ 2 ^ ratExpFloor b := by
            apply zpow_le_zpow_right₀ (by norm_num : (1 : ℚ) ≤ 2)
            omega
        _ ≤ roundDouble b := (roundDouble_bounds hb).1

theorem pyInt_nonneg {q : ℚ} (h : 0 ≤ q) : 0 ≤ pyInt q := by
  rw [pyInt, if_pos h]
  exact Int.floor_nonneg.mpr h

theorem pyInt_mono {a b : ℚ} (ha : 0 ≤ a) (h : a ≤ b) : pyInt a ≤ pyInt b := by
  rw [pyInt, pyInt, if_pos ha, if_pos (ha.trans h)]
  exact Int.floor_le_floor h

theorem pyInt_le_intCast {q : ℚ} {m : ℤ} (h0 : 0 ≤ q) (h : q ≤ (m : ℚ)) : pyInt q ≤ m := by
  rw [pyInt, if_pos h0]
  have := Int.floor_le_floor h
  rwa [Int.floor_intCast] at this

theorem pyInt_natCast (m : ℕ) : pyInt ((m : ℕ) : ℚ) = m := by
  rw [pyInt, if_pos (by positivity)]
  exact_mod_cast Int.floor_natCast m

/-- The binary64 rounding fixes the small integers the progress formulas
multiply by (they are exactly representable). -/
theorem roundDouble_one : roundDouble 1 = 1 := by
  set_option maxRecDepth 100000 in with_unfolding_all rfl

theorem roundDouble_ten : roundDouble 10 = 10 := by
  set_option maxRecDepth 100000 in with_unfolding_all rfl

theorem roundDouble_seventyfive : roundDouble 75 = 75 := by
  set_option maxRecDepth 100000 in with_unfolding_all rfl

theorem roundDouble_ninety : roundDouble 90 = 90 := by
  set_option maxRecDepth 100000 in with_unfolding_all rfl

theorem floatDiv_nonneg (i t : ℕ) : 0 ≤ floatDiv i t := roundDouble_nonneg _

theorem floatDiv_le_one {i t : ℕ} (ht : 0 < t) (h : i ≤ t) : floatDiv i t ≤ 1 := by
  have h1 : ((i : ℕ) : ℚ) / ((t : ℕ) : ℚ) ≤ 1 := by
    rw [div_le_one (by exact_mod_cast ht)]
    exact_mod_cast h
  calc floatDiv i t ≤ roundDouble 1 := roundDouble_mono h1
    _ = 1 := roundDouble_one

theorem floatDiv_mono {i j t : ℕ} (h : i ≤ j) : floatDiv i t ≤ floatDiv j t := by
  apply roundDouble_mono
  rcases Nat.eq_zero_or_pos t with ht | ht
  · simp [ht]
  · have hc : (0 : ℚ) < ((t : ℕ) : ℚ) := by exact_mod_cast ht
    exact (div_le_div_right hc).mpr (by exact_mod_cast h)

theorem floatDiv_self {t : ℕ} (ht : 0 < t) : floatDiv t t = 1 := by
  have : ((t : ℕ) : ℚ) / ((t : ℕ) : ℚ) = 1 :=
    div_self (by exact_mod_cast ht.ne' : ((t : ℕ) : ℚ) ≠ 0)
  rw [floatDiv, this, roundDouble_one]

theorem scaledProgress_nonneg (m i t : ℕ) : 0 ≤ scaledProgress m i t :=
  pyInt_nonneg (roundDouble_nonneg _)

theorem scaledProgress_le {m i t : ℕ} (hm : roundDouble m = m) (ht : 0 < t) (hit : i ≤ t) :
    scaledProgress m i t ≤ m := by
  rw [scaledProgress]
  apply pyInt_le_intCast (roundDouble_nonneg _)
  have h1 : floatDiv i t * (m : ℚ) ≤ (m : ℚ) := by
    have := floatDiv_le_one ht hit
    nlinarith [floatDiv_nonneg i t, (by positivity : (0 : ℚ) ≤ (m : ℚ))]
  calc roundDouble (floatDiv i t * (m : ℚ)) ≤ roundDouble m := roundDouble_mono h1
    _ = ((m : ℤ) : ℚ) := by rw [hm]; push_cast; ring

theorem scaledProgress_mono {m t i j : ℕ} (h : i ≤ j) :
    scaledProgress m i t ≤ scaledProgress m j t := by
  apply pyInt_mono (roundDouble_nonneg _)
  apply roundDouble_mono
  exact mul_le_mul_of_nonneg_right (floatDiv_mono h) (by positivity)

theorem scaledProgress_last {m t : ℕ} (hm : roundDouble m = m) (ht : 0 < t) :
    scaledProgress m t t = m := by
  rw [scaledProgress, floatDiv_self ht, one_mul, hm]
  exact pyInt_natCast m

/-! ## Data model

Mirrors `src/backend/schemas.py` and the dict shapes used by
`services.process_compliance_check` and
`HybridFixedChecklistChecker.process_document`. -/

/-- One requirement of a checklist (spec §3; the JSON objects in the
checklist files).  `text` is the `requirement` key, `checkType` the
`check_type` key, the rest keep the JSON key names. -/
structure Requirement where
  id : String
  text : String
  regulationSource : String
  category : String
  severity : String
  checkType : String
  expectedFields : List String
  searchKeywords : List String

/-- A Compliance Row: the per-requirement result dict.  In the source,
`severity` and `check_type` are echoed into a row only by
`_check_requirement_with_context`; the Not-Checked rows of the
guideline-only flow — the only rows any run actually produces — leave
them absent (`none`). -/
structure Row where
  requirementId : String
  requirementText : String
  regulationSource : String
  category : String
  status : String
  evidence : String
  evidencePages : List ℤ
  remarks : String
  severity : Option String
  checkType : Option String

/-- The summary dict of `_calculate_summary` (and the literal summary of the
guideline-only flow).  `semiCompliant` is the `partially_compliant` key,
`errCount` the `error` key, `complianceRate` the `compliance_rate` key. -/
structure Summary where
  total : ℕ
  compliant : ℕ
  nonCompliant : ℕ
  semiCompliant : ℕ
  errCount : ℕ
  complianceRate : ℚ

/-- The `result` payload of a progress event: either
`{"latest_row": row, "summary": s}` (with `none` standing for the literal
empty dict `{}` used by the guideline-only flow) or
`{"rows": rows, "summary": s}`. -/
inductive ResultPayload where
  | latest (latestRow : Row) (summary : Option Summary)
  | rowsSummary (rows : List Row) (summary : Option Summary)

/-- A progress event as put on the task's asyncio queue.  Every event of the
source carries `status` and `message`; `progress` and `result` are only
present on some events (`none` models an absent key).  The `task_id` key is
determined by the task and omitted. -/
structure Event where
  status : String
  progress : Option ℤ
  message : String
  result : Option ResultPayload

/-- One observable step of the orchestration routine:
an event published on the queue, a genuine suspension point (an await of
`asyncio.to_thread`, where a cancellation signal can be delivered), or the
write of the durable result record with the given `status` field. -/
inductive Step where
  | emit (e : Event)
  | suspend
  | persist (status : String)

/-! ## The orchestration routine (`process_compliance_check` and the
document-supplied flow) -/

/-- Row synthesized by the guideline-only flow of
`process_compliance_check` (no document supplied). -/
def notCheckedRow (r : Requirement) : Row :=
  { requirementId := r.id, requirementText := r.text, regulationSource := r.regulationSource,
    category := r.category, status := "Not Checked", evidence := "No report provided",
    evidencePages := [], remarks := "No document supplied; requirement listed only.",
    severity := none, checkType := none }

/-- First event of `process_compliance_check`. -/
def initEvent : Event :=
  { status := "processing", progress := some 2,
    message := "File received. Initializing processing...", result := none }

/-- Event emitted by `process_document` before indexing the report. -/
def indexingEvent : Event :=
  { status := "processing", progress := some 5, message := "Indexing report...", result := none }

/-- Final event of a successful run. -/
def completedEvent (rows : List Row) (s : Summary) : Event :=
  { status := "completed", progress := some 100, message := "Compliance check complete.",
    result := some (.rowsSummary rows (some s)) }

/-- Outcome of the body of `process_compliance_check` up to (and including)
the final persist/emit: observable steps, final rows, and the message of an
exception that escaped, if any. -/
structure RunOut where
  steps : List Step
  rows : List Row
  abortMsg : Option String

/-- Message of the Python `TypeError` raised when `_build_report_vectorstore`
calls `PDFExtractor.extract_pdf_by_pages(pdf_path,
progress_callback=_progress_callback)` (`hybrid_fixed_checklist_checker.py`
lines 213–214): the extractor is a plain static method
`extract_pdf_by_pages(pdf_path, start_page=1, end_page=None)`
(`pdf_compliance_checker.py` line 94) with no `progress_callback` parameter
and no `**kwargs`, so CPython rejects the call before the extractor body
runs.  (The embedding states nothing about the exact wording of this
message, only that it is the message of the exception that escapes.) -/
def buildTypeErrorMsg : String :=
  "extract_pdf_by_pages() got an unexpected keyword argument progress_callback"

/-- The document-supplied flow of `process_compliance_check`
(`report_path` present, services.py lines 154–167, and
`process_document`, `hybrid_fixed_checklist_checker.py` lines 109–118):
the initial event (progress 2), the "Indexing report..." event
(progress 5), then the `asyncio.to_thread` await of
`_build_report_vectorstore` — the flow's only genuine suspension point.
The first statement of the build calls the extractor with the unsupported
`progress_callback` keyword and raises `TypeError` before any
`put_nowait`, so no build event is published; the exception propagates
through the await to the generic `except` handler of
`process_compliance_check` (`abortMsg`).  The per-requirement loop (lines
125–179), the durable record write and the `completed` event are
unreachable; `reqs` — the consolidated checklist loaded into the checker
as `self.requirements` — is never consulted, and no result row is ever
produced. -/
def docFlowRun (reqs : List Requirement) : RunOut :=
  { steps := [Step.emit initEvent, Step.emit indexingEvent, Step.suspend],
    rows := [], abortMsg := some buildTypeErrorMsg }

/-- Per-requirement event of the guideline-only flow (no document). -/
def listedEvent (r : Requirement) (i total : ℕ) : Event :=
  { status := "processing",
    progress := some (if 0 < total then 5 + scaledProgress 90 i total else 100),
    message := "Listed requirement " ++ toString i ++ "/" ++ toString total ++ ": " ++ r.id,
    result := some (.latest (notCheckedRow r) none) }

/-- The per-requirement emit loop of the guideline-only flow. -/
def listLoop (total : ℕ) : List Requirement → ℕ → List Step
  | [], _ => []
  | r :: rest, i => Step.emit (listedEvent r i total) :: listLoop total rest (i + 1)

/-- The literal summary dict built by the guideline-only flow. -/
def noReportSummary (n : ℕ) : Summary :=
  { total := n, compliant := 0, nonCompliant := 0, semiCompliant := 0, errCount := 0,
    complianceRate := 0 }

/-- Event emitted when the guideline-only flow starts. -/
def noReportStartEvent : Event :=
  { status := "processing", progress := some 5,
    message := "Processing selected checklist(s) (no report supplied)...", result := none }

/-- The guideline-only flow of `process_compliance_check` (no report path,
lines 116–152): one Not-Checked row and one event per requirement, then the
durable record and the `completed` event.  It contains no genuine suspension
point (no `asyncio.to_thread` call). -/
def noReportRun (reqs : List Requirement) : RunOut :=
  let rows := reqs.map notCheckedRow
  { steps := Step.emit initEvent :: Step.emit noReportStartEvent ::
      listLoop reqs.length reqs 1 ++
      [Step.persist "completed",
       Step.emit (completedEvent rows (noReportSummary rows.length))],
    rows := rows, abortMsg := none }

/-! ## Queue traces, failure and cancellation
(`process_compliance_check` exception handlers, lines 199–222) -/

/-- Events published on the queue by a list of steps. -/
def emitsOf (steps : List Step) : List Event :=
  steps.filterMap fun s => match s with
    | .emit e => some e
    | _ => none

/-- Statuses of the durable records written by a list of steps. -/
def persistsOf (steps : List Step) : List String :=
  steps.filterMap fun s => match s with
    | .persist st => some st
    | _ => none

/-- Number of genuine suspension points in a list of steps. -/
def countSuspends (steps : List Step) : ℕ :=
  steps.countP fun s => match s with
    | .suspend => true
    | _ => false

/-- The steps executed before the `(k+1)`-th suspension point (everything,
if there are at most `k` suspension points).  A cancellation signal
delivered at that suspension point lets exactly these steps take effect. -/
def beforeSuspend : List Step → ℕ → List Step
  | [], _ => []
  | Step.suspend :: rest, k =>
    match k with
    | 0 => []
    | k + 1 => Step.suspend :: beforeSuspend rest k
  | Step.emit e :: rest, k => Step.emit e :: beforeSuspend rest k
  | Step.persist st :: rest, k => Step.persist st :: beforeSuspend rest k

/-- Terminal event pushed by the `asyncio.CancelledError` handler (no
`progress`, no `result` key). -/
def cancelEvent : Event :=
  { status := "failed", progress := none, message := "Task cancelled by user.", result := none }

/-- Terminal event pushed by the generic exception handler. -/
def failedEvent (msg : String) : Event :=
  { status := "failed", progress := none, message := msg, result := none }

/-- Everything `process_compliance_check` leaves behind for one run: the
full queue content (`none` is the end-of-stream sentinel appended in the
`finally` block), the statuses of durable records written, and the
`status`/`message` pair passed to `update_task` by a terminal handler
(`none`: the routine itself never updates the registry on success). -/
structure QueueTrace where
  queue : List (Option Event)
  persisted : List String
  dbUpdate : Option (String × String)

/-- Trace of a run that was not cancelled: all events, then the failure
event if an exception escaped, then the sentinel. -/
def normalTrace (r : RunOut) : QueueTrace :=
  { queue := (emitsOf r.steps).map some ++
      (match r.abortMsg with
        | some m => [some (failedEvent m)]
        | none => []) ++ [none],
    persisted := persistsOf r.steps,
    dbUpdate := r.abortMsg.map fun m => ("failed", m) }

/-- Trace of a run cancelled at its `(k+1)`-th suspension point: the events
emitted before that point, then the cancellation event, then the sentinel;
the `CancelledError` handler marks the task failed with the fixed message. -/
def cancelTrace (r : RunOut) (k : ℕ) : QueueTrace :=
  { queue := (emitsOf (beforeSuspend r.steps k)).map some ++ [some cancelEvent, none],
    persisted := persistsOf (beforeSuspend r.steps k),
    dbUpdate := some ("failed", "Task cancelled by user.") }

/-- The sequence of `progress` values carried by the events of a queue, in
order (events without a `progress` key, and the sentinel, carry none). -/
def progressSeq (q : List (Option Event)) : List ℤ :=
  (q.filterMap id).filterMap Event.progress

/-! ## Python dicts, the Task Registry and `update_task`
(`src/backend/database.py`, `services.update_task`) -/

/-- First-match lookup in an association list modelling a Python dict. -/
def dlookup {α : Type} (k : String) : List (String × α) → Option α
  | [] => none
  | (k2, v) :: rest => if k2 = k then some v else dlookup k rest

/-- Python dict item assignment `d[k] = v`: replace the value of an existing
key in place, or append a new key at the end. -/
def dinsert {α : Type} (k : String) (v : α) : List (String × α) → List (String × α)
  | [] => [(k, v)]
  | (k2, w) :: rest => if k2 = k then (k2, v) :: rest else (k2, w) :: dinsert k v rest

/-- Python dict deletion `del d[k]` (first occurrence). -/
def dremove {α : Type} (k : String) : List (String × α) → List (String × α)
  | [] => []
  | (k2, w) :: rest => if k2 = k then rest else (k2, w) :: dremove k rest

/-- Python `d.update(ups)`: assign every key of `ups` in order. -/
def pyDictUpdate {α : Type} (d ups : List (String × α)) : List (String × α) :=
  ups.foldl (fun acc kv => dinsert kv.1 kv.2 acc) d

/-- Values stored in a task's snapshot dict (strings, integers, string
lists, result payloads — the value shapes `tasks_db` entries actually
hold). -/
inductive Val where
  | s (v : String)
  | i (v : ℤ)
  | strs (v : List String)
  | res (v : ResultPayload)

/-- A task snapshot: the field dict of one `tasks_db` entry. -/
def TaskRec : Type := List (String × Val)

/-- The in-memory task database `database.tasks_db`. -/
def TasksDb : Type := List (String × TaskRec)

/-- `services.update_task` (lines 17–22): if the task id is present, merge
the given fields into its snapshot and set `updated_at` to the current
time; otherwise do nothing. -/
def updateTask (db : TasksDb) (taskId : String) (ups : List (String × Val))
    (now : String) : TasksDb :=
  match dlookup taskId db with
  | none => db
  | some rec2 => dinsert taskId (dinsert "updated_at" (Val.s now) (pyDictUpdate rec2 ups)) db

/-! ## The SSE event generator
(`stream_task_status.event_generator`, `src/backend/routers/tasks.py`
lines 158–202) -/

/-- The update dict `{k: v for k, v in update.items() if k != "task_id"}`
derived from one progress event, in dict iteration order. -/
def eventToUpdates (e : Event) : List (String × Val) :=
  [("status", Val.s e.status)]
  ++ (match e.progress with
      | some p => [("progress", Val.i p)]
      | none => [])
  ++ [("message", Val.s e.message)]
  ++ (match e.result with
      | some r => [("result", Val.res r)]
      | none => [])

/-- The consumer loop of the event generator: for each queue item until the
sentinel, first mirror the event into the task registry snapshot
(`services.update_task`), then hand the event to the subscriber.  Returns
the delivered events, each paired with the registry state at the moment of
delivery, plus the final registry state. -/
def genRun (taskId : String) (now : String) :
    List (Option Event) → TasksDb → List (TasksDb × Event) × TasksDb
  | [], db => ([], db)
  | none :: _, db => ([], db)
  | some e :: rest, db =>
    let db2 := updateTask db taskId (eventToUpdates e) now
    let r := genRun taskId now rest db2
    ((db2, e) :: r.1, r.2)

/-! ## `cancel_task` (`src/backend/routers/tasks.py` lines 207–230) -/

/-- Outcome of a `cancel_task` call: an `HTTPException` with a status code
and detail, or a successful cancellation request on the live handle. -/
inductive CancelOutcome where
  | http (code : ℕ) (detail : String)
  | requested (message : String)

/-- `cancel_task`: `statuses` maps task ids to their current `status` field
in `tasks_db`; `running` maps task ids registered in `running_async_tasks`
to the `done()` flag of their asyncio task handle.  Returns the outcome and
the updated `running` map (the done-but-still-registered branch removes the
stale handle). -/
def cancelTask (statuses : List (String × String)) (running : List (String × Bool))
    (taskId : String) : CancelOutcome × List (String × Bool) :=
  match dlookup taskId statuses with
  | none => (.http 404 "Task not found in database.", running)
  | some st =>
    if st ≠ "pending" ∧ st ≠ "processing" then
      (.http 400 ("Task " ++ taskId ++ " is already " ++ st ++ " and cannot be cancelled."),
        running)
    else
      match dlookup taskId running with
      | none => (.http 404 ("Task " ++ taskId ++ " not found as currently running."), running)
      | some done =>
        if done then
          (.http 400 ("Task " ++ taskId ++ " is already complete or failed."),
            dremove taskId running)
        else
          (.requested ("Cancellation requested for task " ++ taskId ++ "."), running)

/-! ## `start_match` validation and task creation
(`src/backend/routers/tasks.py` lines 108–138) -/

/-- The registry state `start_match` touches after the request is parsed:
the task database, the ids owning a progress queue (`task_queues`), and the
ids owning a running handle (`running_async_tasks`). -/
structure OrchState where
  tasksDb : TasksDb
  queueIds : List String
  runningIds : List String

/-- `GET /tasks` (`list_tasks`): the snapshots of all tasks. -/
def listTasks (st : OrchState) : List TaskRec := st.tasksDb.map Prod.snd

/-- The initial snapshot dict of a freshly created task (lines 118–128). -/
def initialTaskRec (taskId reportFilename now : String) (guidelineIds : List String) :
    TaskRec :=
  [("task_id", Val.s taskId), ("status", Val.s "pending"), ("progress", Val.i 0),
   ("message", Val.s "Task created, starting processing..."),
   ("result", Val.res (.rowsSummary [] none)),
   ("created_at", Val.s now), ("updated_at", Val.s now),
   ("report_filename", Val.s reportFilename), ("guideline_ids", Val.strs guidelineIds)]

/-- The checklist-validation and task-creation part of `start_match`
(after the request body is parsed and the report resolved): every selected
checklist id is checked against the Checklist Store keys in order; the
first unknown id raises a 404 `HTTPException` before anything is created;
otherwise the task snapshot, its progress queue and its running handle are
registered and the new task id is returned. -/
def startMatchValidated (known : List String) (selected : List String)
    (taskId reportFilename now : String) (st : OrchState) :
    OrchState × Except (ℕ × String) String :=
  match selected.find? fun g => !(known.contains g) with
  | some g => (st, .error (404, "Checklist " ++ g ++ " not found."))
  | none =>
    ({ tasksDb := dinsert taskId (initialTaskRec taskId reportFilename now selected) st.tasksDb,
       queueIds := st.queueIds ++ [taskId],
       runningIds := st.runningIds ++ [taskId] },
      .ok taskId)

/-! ## Checklist loading (`services.load_existing_guidelines`, lines 24–77) -/

/-- The parse of one checklist JSON file: `.error` for a JSON decode
failure, otherwise the three keys the loader looks at (`none` = key
absent). -/
structure JsonChecklist where
  checklistName : Option String
  requirements : Option (List Requirement)
  outputReportTitle : Option String

/-- One file found by the `*.json` glob: its stem, filesystem metadata, and
its parse outcome. -/
structure ChecklistFile where
  stem : String
  mtimeIso : String
  size : ℕ
  parsed : Except String JsonChecklist

/-- One `guidelines_db` entry as the loader builds it. -/
structure GuidelineEntry where
  id : String
  filename : String
  uploadedAt : String
  size : ℕ
  pages : ℕ
  vectorstoreReady : Bool
  description : String
  outputReportTitle : Option String
  requirements : List Requirement

/-- Whether the loader registers a file: it must parse and contain both the
`checklist_name` and `requirements` keys (matching the membership test on
line 51 of `services.py`). -/
def fileAccepted (f : ChecklistFile) : Bool :=
  match f.parsed with
  | .error _ => false
  | .ok c => c.checklistName.isSome ∧ c.requirements.isSome

/-- The entry registered for an accepted file. -/
def entryOf (f : ChecklistFile) (c : JsonChecklist) : GuidelineEntry :=
  { id := f.stem, filename := f.stem ++ ".json", uploadedAt := f.mtimeIso, size := f.size,
    pages := (c.requirements.getD []).length, vectorstoreReady := true,
    description := c.checklistName.getD "N/A",
    outputReportTitle := c.outputReportTitle,
    requirements := c.requirements.getD [] }

/-- `load_existing_guidelines` over the files found in the checklist
directory (in glob order): each file is parsed; a decode failure or a
missing `checklist_name`/`requirements` key skips the file (with a log
line) and continues with the next one; an accepted file is registered in
`guidelines_db` under its stem. -/
def loadGuidelines (files : List ChecklistFile) : List (String × GuidelineEntry) :=
  files.foldl
    (fun db f =>
      match f.parsed with
      | .error _ => db
      | .ok c =>
        if c.checklistName.isSome ∧ c.requirements.isSome then
          dinsert f.stem (entryOf f c) db
        else db)
    []

/-! ## Dictionary lemmas -/

theorem dlookup_dinsert_self {α : Type} (k : String) (v : α) :
    ∀ d : List (String × α), dlookup k (dinsert k v d) = some v := by
  intro d
  induction d with
  | nil => simp [dinsert, dlookup]
  | cons kv rest ih =>
    by_cases h : kv.1 = k
    · simp [dinsert, dlookup, h]
    · simp only [dinsert, dlookup]
      rw [if_neg h, dlookup, if_neg h]
      exact ih

theorem dlookup_dinsert_ne {α : Type} {k k2 : String} (h : k2 ≠ k) (v : α) :
    ∀ d : List (String × α), dlookup k2 (dinsert k v d) = dlookup k2 d := by
  intro d
  induction d with
  | nil =>
    show dlookup k2 [(k, v)] = none
    rw [dlookup, if_neg (fun hh : k = k2 => h hh.symm)]
    rfl
  | cons kv rest ih =>
    by_cases hk : kv.1 = k
    · subst hk
      simp only [dinsert, if_pos rfl, dlookup]
      rw [if_neg (fun hh : kv.1 = k2 => h hh.symm), if_neg (fun hh : kv.1 = k2 => h hh.symm)]
    · simp only [dinsert, if_neg hk, dlookup]
      split <;> simp [ih]

/-! ## Claim C10 -/

/-- Claim C10: calling `update_task` with a task identifier not present in
`tasks_db` is a silent no-op — it raises no error (the embedding is a total
function), creates no entry and leaves the whole database unchanged; when
the identifier is present, the given fields are merged into its snapshot,
`updated_at` is refreshed, and every other task's entry is untouched. -/
theorem updateTask_absent_noop_present_merges (db : TasksDb) (taskId : String)
    (ups : List (String × Val)) (now : String) :
    (dlookup taskId db = none → updateTask db taskId ups now = db) ∧
    (∀ rec2, dlookup taskId db = some rec2 →
      dlookup taskId (updateTask db taskId ups now)
          = some (dinsert "updated_at" (Val.s now) (pyDictUpdate rec2 ups)) ∧
      ∀ taskId2, taskId2 ≠ taskId →
        dlookup taskId2 (updateTask db taskId ups now) = dlookup taskId2 db) := by
  constructor
  · intro h
    rw [updateTask, h]
  · intro rec2 h
    rw [updateTask, h]
    exact ⟨dlookup_dinsert_self _ _ db, fun t2 ht2 => dlookup_dinsert_ne ht2 _ db⟩

/-- Witness for C10 at a concrete database: updating the unknown id `"zz"`
changes nothing; updating the known id `"t1"` merges the `status` field,
refreshes `updated_at`, and leaves task `"t2"` untouched. -/
theorem updateTask_absent_noop_present_merges_witness :
    (updateTask [("t1", [("status", Val.s "pending")]), ("t2", [])] "zz"
        [("status", Val.s "failed")] "now2"
      = [("t1", [("status", Val.s "pending")]), ("t2", [])]) ∧
    (dlookup "t1" (updateTask [("t1", [("status", Val.s "pending")]), ("t2", [])] "t1"
        [("status", Val.s "failed")] "now2")
      = some [("status", Val.s "failed"), ("updated_at", Val.s "now2")]) ∧
    (dlookup "t2" (updateTask [("t1", [("status", Val.s "pending")]), ("t2", [])] "t1"
        [("status", Val.s "failed")] "now2") = dlookup "t2"
        [("t1", [("status", Val.s "pending")]), ("t2", [])]) := by
  refine ⟨?_, ?_, ?_⟩
  · exact (updateTask_absent_noop_present_merges
      [("t1", [("status", Val.s "pending")]), ("t2", [])] "zz"
      [("status", Val.s "failed")] "now2").1 rfl
  · exact ((updateTask_absent_noop_present_merges
      [("t1", [("status", Val.s "pending")]), ("t2", [])] "t1"
      [("status", Val.s "failed")] "now2").2 [("status", Val.s "pending")] rfl).1.trans rfl
  · exact ((updateTask_absent_noop_present_merges
      [("t1", [("status", Val.s "pending")]), ("t2", [])] "t1"
      [("status", Val.s "failed")] "now2").2 [("status", Val.s "pending")] rfl).2 "t2"
      (by decide)

/-! ## Claim C6 -/

/-- Claim C6: `cancel_task` returns 400 on a known task in a terminal state
(`completed` or `failed`); it returns 404 on a known, non-terminal task with
no registered running handle; and a cancellation is actually requested on
the handle exactly when the task is `pending` or `processing` and a live
(registered, not done) handle exists. -/
theorem cancelTask_contract (statuses : List (String × String))
    (running : List (String × Bool)) (taskId : String) :
    (∀ st, dlookup taskId statuses = some st → (st = "completed" ∨ st = "failed") →
      ∃ d, (cancelTask statuses running taskId).1 = .http 400 d) ∧
    (∀ st, dlookup taskId statuses = some st → (st = "pending" ∨ st = "processing") →
      dlookup taskId running = none →
      ∃ d, (cancelTask statuses running taskId).1 = .http 404 d) ∧
    ((∃ m, (cancelTask statuses running taskId).1 = .requested m) ↔
      ∃ st, dlookup taskId statuses = some st ∧ (st = "pending" ∨ st = "processing") ∧
        dlookup taskId running = some false) := by
  refine ⟨?_, ?_, ?_⟩
  · intro st hst hterm
    have hcond : st ≠ "pending" ∧ st ≠ "processing" := by
      rcases hterm with h | h <;> subst h <;> exact ⟨by decide, by decide⟩
    simp only [cancelTask, hst, if_pos hcond]
    exact ⟨_, rfl⟩
  · intro st hst hlive hnone
    have hcond : ¬ (st ≠ "pending" ∧ st ≠ "processing") := by
      rcases hlive with h | h <;> subst h <;> simp
    simp only [cancelTask, hst, if_neg hcond, hnone]
    exact ⟨_, rfl⟩
  · constructor
    · intro ⟨m, hm⟩
      rcases h1 : dlookup taskId statuses with _ | st
      · simp [cancelTask, h1] at hm
      · by_cases h2 : st ≠ "pending" ∧ st ≠ "processing"
        · simp [cancelTask, h1, if_pos h2] at hm
        · rcases h3 : dlookup taskId running with _ | done
          · simp [cancelTask, h1, if_neg h2, h3] at hm
          · rcases done with _ | _
            · have hdisj : st = "pending" ∨ st = "processing" := by
                by_cases hp : st = "pending"
                · exact Or.inl hp
                · push_neg at h2
                  exact Or.inr (h2 hp)
              exact ⟨st, rfl, hdisj, rfl⟩
            · simp [cancelTask, h1, if_neg h2, h3] at hm
    · intro ⟨st, hst, hps, hfalse⟩
      have hcond : ¬ (st ≠ "pending" ∧ st ≠ "processing") := by
        rcases hps with h | h <;> subst h <;> simp
      simp only [cancelTask, hst, if_neg hcond, hfalse, if_neg Bool.false_ne_true]
      exact ⟨_, rfl⟩

/-- Witness for C6 on a concrete registry: task `"a"` is `completed`
(→ 400), task `"c"` is `processing` with no handle (→ 404), and task `"b"`
is `processing` with a live handle (→ cancellation requested). -/
theorem cancelTask_contract_witness :
    (∃ d, (cancelTask [("a", "completed"), ("b", "processing"), ("c", "processing")]
        [("b", false)] "a").1 = .http 400 d) ∧
    (∃ d, (cancelTask [("a", "completed"), ("b", "processing"), ("c", "processing")]
        [("b", false)] "c").1 = .http 404 d) ∧
    (∃ m, (cancelTask [("a", "completed"), ("b", "processing"), ("c", "processing")]
        [("b", false)] "b").1 = .requested m) := by
  refine ⟨?_, ?_, ?_⟩
  · exact (cancelTask_contract [("a", "completed"), ("b", "processing"), ("c", "processing")]
      [("b", false)] "a").1 "completed" rfl (Or.inl rfl)
  · exact (cancelTask_contract [("a", "completed"), ("b", "processing"), ("c", "processing")]
      [("b", false)] "c").2.1 "processing" rfl (Or.inr rfl) rfl
  · exact (cancelTask_contract [("a", "completed"), ("b", "processing"), ("c", "processing")]
      [("b", false)] "b").2.2.mpr ⟨"processing", rfl, Or.inr rfl, rfl⟩

/-! ## Claim C3 -/

/-- Claim C3: a submission whose selected checklist ids contain at least one
id unknown to the Checklist Store fails with a 404 before any task is
created: the registry state (task database, progress queues, running
handles) is returned unchanged, so `list-tasks` is unchanged too, and the
error names an unknown selected id. -/
theorem startMatch_unknown_checklist_rejected (known selected : List String)
    (taskId reportFilename now : String) (st : OrchState)
    (h : ∃ g ∈ selected, known.contains g = false) :
    (startMatchValidated known selected taskId reportFilename now st).1 = st ∧
    listTasks (startMatchValidated known selected taskId reportFilename now st).1
      = listTasks st ∧
    ∃ g ∈ selected, known.contains g = false ∧
      (startMatchValidated known selected taskId reportFilename now st).2
        = .error (404, "Checklist " ++ g ++ " not found.") := by
  have hsome : (selected.find? fun g => !(known.contains g)).isSome := by
    rw [List.find?_isSome]
    obtain ⟨g, hg, hgc⟩ := h
    refine ⟨g, hg, ?_⟩
    simp only [Bool.not_eq_true']
    exact hgc
  obtain ⟨g0, hg0⟩ := Option.isSome_iff_exists.mp hsome
  have hmem : g0 ∈ selected := List.mem_of_find?_eq_some hg0
  have hprop : known.contains g0 = false := by
    have := List.find?_some hg0
    simpa using this
  refine ⟨?_, ?_, g0, hmem, hprop, ?_⟩ <;>
    simp only [startMatchValidated, hg0]

/-- Witness for C3: selecting the unknown checklist id `"g2"` (the store
only knows `"g1"`) leaves the registry untouched and returns a 404. -/
theorem startMatch_unknown_checklist_rejected_witness :
    (startMatchValidated ["g1"] ["g1", "g2"] "t" "r.pdf" "now"
        { tasksDb := [], queueIds := [], runningIds := [] }).1
      = { tasksDb := [], queueIds := [], runningIds := [] } ∧
    listTasks (startMatchValidated ["g1"] ["g1", "g2"] "t" "r.pdf" "now"
        { tasksDb := [], queueIds := [], runningIds := [] }).1
      = listTasks { tasksDb := [], queueIds := [], runningIds := [] } ∧
    ∃ g ∈ ["g1", "g2"], List.contains ["g1"] g = false ∧
      (startMatchValidated ["g1"] ["g1", "g2"] "t" "r.pdf" "now"
          { tasksDb := [], queueIds := [], runningIds := [] }).2
        = .error (404, "Checklist " ++ g ++ " not found.") :=
  startMatch_unknown_checklist_rejected ["g1"] ["g1", "g2"] "t" "r.pdf" "now"
    { tasksDb := [], queueIds := [], runningIds := [] }
    ⟨"g2", by decide, by decide⟩

/-! ## Claim C9 -/

/-- A checklist file that parses, has a name and has the `requirements` key
mapped to an empty list. -/
def emptyReqFile : ChecklistFile :=
  { stem := "empty", mtimeIso := "2024-01-01T00:00:00", size := 64,
    parsed := .ok { checklistName := some "Empty checklist", requirements := some [],
                    outputReportTitle := none } }

/-- Counterexample to claim C9 as stated: the loader validates only the
*presence* of the `checklist_name` and `requirements` keys, not that the
requirement list is non-empty, so a file whose requirement list is empty is
accepted and registered — the claim says it is skipped. -/
theorem loadGuidelines_accepts_empty_requirements :
    fileAccepted emptyReqFile = true ∧
    ∃ e, dlookup "empty" (loadGuidelines [emptyReqFile]) = some e ∧ e.requirements = [] :=
  ⟨rfl, entryOf emptyReqFile
    { checklistName := some "Empty checklist", requirements := some [],
      outputReportTitle := none }, rfl, rfl⟩

/-- The folding step of `loadGuidelines`, named for reuse in proofs. -/
def loadStep (db : List (String × GuidelineEntry)) (f : ChecklistFile) :
    List (String × GuidelineEntry) :=
  match f.parsed with
  | .error _ => db
  | .ok c =>
    if c.checklistName.isSome ∧ c.requirements.isSome then
      dinsert f.stem (entryOf f c) db
    else db

theorem loadGuidelines_eq_foldl (files : List ChecklistFile) :
    loadGuidelines files = files.foldl loadStep [] := rfl

/-- Helper: folding the loader step over files none of which has the given
stem never changes that stem's entry. -/
theorem loadStep_foldl_untouched (key : String) :
    ∀ (files : List ChecklistFile) (db : List (String × GuidelineEntry)),
      (∀ f ∈ files, f.stem ≠ key) →
      dlookup key (files.foldl loadStep db) = dlookup key db := by
  intro files
  induction files with
  | nil => intro db _; rfl
  | cons f rest ih =>
    intro db hne
    rw [List.foldl_cons]
    have hstep : dlookup key (loadStep db f) = dlookup key db := by
      rcases hp : f.parsed with _ | c
      · simp only [loadStep, hp]
      · simp only [loadStep, hp]
        by_cases hc : c.checklistName.isSome ∧ c.requirements.isSome
        · rw [if_pos hc]
          exact dlookup_dinsert_ne (fun hh : key = f.stem =>
            hne f (List.mem_cons_self f rest) hh.symm) _ db
        · rw [if_neg hc]
    rw [ih _ (fun f2 hf2 => hne f2 (List.mem_cons_of_mem f hf2)), hstep]

/-- Claim C9 amended: the loader registers a file exactly when it parses and
has both the `checklist_name` and `requirements` keys present (the
requirement list may be empty); every failing file — parse error or missing
key — is skipped without aborting the loading of the remaining files. -/
theorem loadGuidelines_registers_iff_accepted (files : List ChecklistFile)
    (hnodup : (files.map ChecklistFile.stem).Nodup) :
    ∀ f ∈ files,
      (∀ c, f.parsed = .ok c → fileAccepted f = true →
        dlookup f.stem (loadGuidelines files) = some (entryOf f c)) ∧
      (fileAccepted f = false → dlookup f.stem (loadGuidelines files) = none) := by
  rw [loadGuidelines_eq_foldl]
  suffices h : ∀ (fs : List ChecklistFile) (db : List (String × GuidelineEntry)),
      (fs.map ChecklistFile.stem).Nodup →
      (∀ f ∈ fs, dlookup f.stem db = none) →
      ∀ f ∈ fs,
        (∀ c, f.parsed = .ok c → fileAccepted f = true →
          dlookup f.stem (fs.foldl loadStep db) = some (entryOf f c)) ∧
        (fileAccepted f = false → dlookup f.stem (fs.foldl loadStep db) = none) by
    exact h files [] hnodup (fun f _ => rfl)
  intro fs
  induction fs with
  | nil => intro db _ _ f hf; exact absurd hf (List.not_mem_nil f)
  | cons f0 rest ih =>
    intro db hnodup2 hfresh f hf
    rw [List.map_cons, List.nodup_cons] at hnodup2
    have hne0 : ∀ f2 ∈ rest, f2.stem ≠ f0.stem := by
      intro f2 hf2 he
      exact hnodup2.1 (he ▸ List.mem_map_of_mem ChecklistFile.stem hf2)
    rcases List.mem_cons.mp hf with hf0 | hfr
    · subst hf0
      rw [List.foldl_cons]
      constructor
      · intro c hc hacc
        rw [loadStep_foldl_untouched f.stem rest _ hne0]
        have hok : c.checklistName.isSome ∧ c.requirements.isSome := by
          rw [fileAccepted, hc] at hacc
          simpa using hacc
        simp only [loadStep, hc]
        rw [if_pos hok]
        exact dlookup_dinsert_self _ _ db
      · intro hacc
        rw [loadStep_foldl_untouched f.stem rest _ hne0]
        rcases hp : f.parsed with _ | c2
        · simp only [loadStep, hp]
          exact hfresh f (List.mem_cons_self f rest)
        · simp only [loadStep, hp]
          have hbad : ¬ (c2.checklistName.isSome ∧ c2.requirements.isSome) := by
            rw [fileAccepted, hp] at hacc
            simpa using hacc
          rw [if_neg hbad]
          exact hfresh f (List.mem_cons_self f rest)
    · rw [List.foldl_cons]
      refine ih (loadStep db f0) hnodup2.2 ?_ f hfr
      intro f2 hf2
      rcases hp : f0.parsed with _ | c2
      · simp only [loadStep, hp]
        exact hfresh f2 (List.mem_cons_of_mem f0 hf2)
      · simp only [loadStep, hp]
        by_cases hc : c2.checklistName.isSome ∧ c2.requirements.isSome
        · rw [if_pos hc, dlookup_dinsert_ne (hne0 f2 hf2) _ db]
          exact hfresh f2 (List.mem_cons_of_mem f0 hf2)
        · rw [if_neg hc]
          exact hfresh f2 (List.mem_cons_of_mem f0 hf2)

/-- A file failing JSON decoding. -/
def badJsonFile : ChecklistFile :=
  { stem := "bad", mtimeIso := "2024-01-01T00:00:00", size := 3,
    parsed := .error "invalid JSON" }

/-- A requirement used by concrete checklist files in witnesses. -/
def witnessReq : Requirement :=
  { id := "R1", text := "Must have a plan", regulationSource := "SRC", category := "CAT",
    severity := "High", checkType := "presence", expectedFields := [], searchKeywords := [] }

/-- A valid checklist file with one requirement. -/
def goodFile : ChecklistFile :=
  { stem := "good", mtimeIso := "2024-01-02T00:00:00", size := 128,
    parsed := .ok { checklistName := some "Good checklist",
                    requirements := some [witnessReq], outputReportTitle := none } }

/-- Witness for the amended C9: with a decode-failing file followed by a
valid one, the bad file is skipped (not registered) and the good file is
still registered — skipping does not abort the scan. -/
theorem loadGuidelines_registers_iff_accepted_witness :
    dlookup "bad" (loadGuidelines [badJsonFile, goodFile]) = none ∧
    dlookup "good" (loadGuidelines [badJsonFile, goodFile])
      = some (entryOf goodFile
          { checklistName := some "Good checklist",
            requirements := some [witnessReq], outputReportTitle := none }) := by
  constructor
  · exact ((loadGuidelines_registers_iff_accepted [badJsonFile, goodFile] (by decide))
      badJsonFile (by simp [badJsonFile, goodFile])).2 rfl
  · exact ((loadGuidelines_registers_iff_accepted [badJsonFile, goodFile] (by decide))
      goodFile (by simp [badJsonFile, goodFile])).1 _ rfl rfl

/-! ## Claim C8 -/

theorem dlookup_pyDictUpdate_notMem {α : Type} (k : String) :
    ∀ (ups d : List (String × α)), k ∉ ups.map Prod.fst →
      dlookup k (pyDictUpdate d ups) = dlookup k d := by
  intro ups
  induction ups with
  | nil => intro d _; rfl
  | cons kv rest ih =>
    intro d hk
    rw [List.map_cons, List.mem_cons] at hk
    push_neg at hk
    rw [pyDictUpdate, List.foldl_cons]
    have : rest.foldl (fun acc kv => dinsert kv.1 kv.2 acc) (dinsert kv.1 kv.2 d)
        = pyDictUpdate (dinsert kv.1 kv.2 d) rest := rfl
    rw [this, ih _ hk.2]
    exact dlookup_dinsert_ne hk.1 _ d

theorem dlookup_pyDictUpdate_mem {α : Type} :
    ∀ (ups d : List (String × α)) (k : String) (v : α),
      (ups.map Prod.fst).Nodup → (k, v) ∈ ups →
      dlookup k (pyDictUpdate d ups) = some v := by
  intro ups
  induction ups with
  | nil => intro d k v _ hm; exact absurd hm (List.not_mem_nil _)
  | cons kv rest ih =>
    intro d k v hnodup hm
    rw [List.map_cons, List.nodup_cons] at hnodup
    rw [pyDictUpdate, List.foldl_cons]
    have hfold : rest.foldl (fun acc kv => dinsert kv.1 kv.2 acc) (dinsert kv.1 kv.2 d)
        = pyDictUpdate (dinsert kv.1 kv.2 d) rest := rfl
    rw [hfold]
    rcases List.mem_cons.mp hm with hm0 | hmr
    · cases hm0.symm
      rw [dlookup_pyDictUpdate_notMem k rest _ (by simpa using hnodup.1)]
      exact dlookup_dinsert_self _ _ d
    · exact ih _ k v hnodup.2 hmr

theorem eventToUpdates_keys_nodup (e : Event) :
    ((eventToUpdates e).map Prod.fst).Nodup := by
  rcases e with ⟨st, pr, msg, res⟩
  rcases pr with _ | p <;> rcases res with _ | r <;> simp [eventToUpdates]

theorem eventToUpdates_no_updated_at (e : Event) :
    ∀ kv ∈ eventToUpdates e, kv.1 ≠ "updated_at" := by
  intro kv hkv
  have hmem : kv.1 ∈ (eventToUpdates e).map Prod.fst := List.mem_map_of_mem Prod.fst hkv
  rcases e with ⟨st, pr, msg, res⟩
  rcases pr with _ | p <;> rcases res with _ | r <;>
    simp only [eventToUpdates, List.map_append, List.map_cons, List.map_nil,
      List.append_nil, List.nil_append, List.cons_append, List.mem_cons,
      List.not_mem_nil, or_false] at hmem <;>
    · intro hk
      rw [hk] at hmem
      revert hmem
      decide

/-- After `update_task` merges an event's fields, the task's snapshot holds
exactly the event's values on every merged field. -/
theorem updateTask_event_agrees (db : TasksDb) (taskId : String) (e : Event) (now : String)
    (rec2 : TaskRec) (h : dlookup taskId db = some rec2) :
    ∃ rec3, dlookup taskId (updateTask db taskId (eventToUpdates e) now) = some rec3 ∧
      ∀ kv ∈ eventToUpdates e, dlookup kv.1 rec3 = some kv.2 := by
  rw [updateTask, h]
  refine ⟨_, dlookup_dinsert_self _ _ db, ?_⟩
  intro kv hkv
  rw [dlookup_dinsert_ne (eventToUpdates_no_updated_at e kv hkv) _ _]
  exact dlookup_pyDictUpdate_mem (eventToUpdates e) rec2 kv.1 kv.2
    (eventToUpdates_keys_nodup e) hkv

/-- Claim C8: for every non-sentinel event the generator delivers, the task
registry snapshot is updated with all of the event's fields before the
event is handed to the subscriber, so at every delivery the snapshot agrees
with the delivered event on each field the event carries (`status` and
`message` always; `progress` and `result` when present). -/
theorem genRun_snapshot_agrees (taskId now : String) :
    ∀ (q : List (Option Event)) (db : TasksDb),
      (∃ rec2, dlookup taskId db = some rec2) →
      ∀ p ∈ (genRun taskId now q db).1,
        ∃ rec3, dlookup taskId p.1 = some rec3 ∧
          ∀ kv ∈ eventToUpdates p.2, dlookup kv.1 rec3 = some kv.2 := by
  intro q
  induction q with
  | nil => intro db _ p hp; exact absurd hp (List.not_mem_nil p)
  | cons item rest ih =>
    intro db hpres p hp
    obtain ⟨rec2, hrec⟩ := hpres
    rcases item with _ | e
    · exact absurd hp (List.not_mem_nil p)
    · rw [genRun] at hp
      rcases List.mem_cons.mp hp with hp0 | hpr
      · obtain ⟨rec3, hrec3, hkv⟩ := updateTask_event_agrees db taskId e now rec2 hrec
        rw [hp0]
        exact ⟨rec3, hrec3, hkv⟩
      · obtain ⟨rec3, hrec3, _⟩ := updateTask_event_agrees db taskId e now rec2 hrec
        exact ih _ ⟨rec3, hrec3⟩ p hpr

/-- Witness for C8: streaming `initEvent` then the sentinel for task `"t"`
keeps the snapshot in lockstep with the delivered event — after delivery
the snapshot holds the event's `status`, `progress` and `message`. -/
theorem genRun_snapshot_agrees_witness :
    dlookup "status" ((dlookup "t" (updateTask [("t", [("status", Val.s "pending")])] "t"
        (eventToUpdates initEvent) "now")).getD []) = some (Val.s "processing") ∧
    dlookup "progress" ((dlookup "t" (updateTask [("t", [("status", Val.s "pending")])] "t"
        (eventToUpdates initEvent) "now")).getD []) = some (Val.i 2) ∧
    dlookup "message" ((dlookup "t" (updateTask [("t", [("status", Val.s "pending")])] "t"
        (eventToUpdates initEvent) "now")).getD [])
      = some (Val.s "File received. Initializing processing...") := by
  have hmem : (updateTask [("t", [("status", Val.s "pending")])] "t"
      (eventToUpdates initEvent) "now", initEvent)
      ∈ (genRun "t" "now" [some initEvent, none]
          [("t", [("status", Val.s "pending")])]).1 := by
    rw [show (genRun "t" "now" [some initEvent, none]
        [("t", [("status", Val.s "pending")])]).1
        = [(updateTask [("t", [("status", Val.s "pending")])] "t"
            (eventToUpdates initEvent) "now", initEvent)] from rfl]
    exact List.mem_cons_self _ _
  obtain ⟨rec3, h1, h2⟩ := genRun_snapshot_agrees "t" "now" [some initEvent, none]
    [("t", [("status", Val.s "pending")])] ⟨[("status", Val.s "pending")], rfl⟩
    _ hmem
  have hupd : eventToUpdates initEvent
      = [("status", Val.s "processing"), ("progress", Val.i 2),
         ("message", Val.s "File received. Initializing processing...")] := rfl
  rw [h1]
  refine ⟨?_, ?_, ?_⟩
  · exact h2 ("status", Val.s "processing") (by rw [hupd]; exact List.mem_cons_self _ _)
  · exact h2 ("progress", Val.i 2)
      (by rw [hupd]; exact List.mem_cons_of_mem _ (List.mem_cons_self _ _))
  · exact h2 ("message", Val.s "File received. Initializing processing...")
      (by rw [hupd]
          exact List.mem_cons_of_mem _ (List.mem_cons_of_mem _ (List.mem_cons_self _ _)))

/-! ## Claim C1 -/

/-- A sample requirement for concrete runs. -/
def sampleReq : Requirement :=
  { id := "R1", text := "Requirement text", regulationSource := "MEPC", category := "General",
    severity := "High", checkType := "presence", expectedFields := [], searchKeywords := [] }

/-- Claim C1 (code bug): no document-supplied run ever exercises the
claimed local containment of a per-requirement failure, because every
document-supplied run — over any consolidated checklist of `N`
requirements, regardless of how retrieval or evaluation would behave —
raises `TypeError` at the report-index build (the extractor call with the
unsupported `progress_callback` keyword) before the per-requirement loop
is entered: the run aborts with that exception, produces zero result rows
(never `N` rows with one `Error` row), writes no durable record, puts
only the two pre-build events and the terminal failure event on the
queue, and never reaches `completed`. -/
theorem documentRunFailsBeforeRequirements (reqs : List Requirement) :
    (docFlowRun reqs).abortMsg = some buildTypeErrorMsg ∧
    (docFlowRun reqs).rows = [] ∧
    (normalTrace (docFlowRun reqs)).dbUpdate = some ("failed", buildTypeErrorMsg) ∧
    (normalTrace (docFlowRun reqs)).persisted = [] ∧
    (normalTrace (docFlowRun reqs)).queue.filterMap id
      = [initEvent, indexingEvent, failedEvent buildTypeErrorMsg] ∧
    (∀ e ∈ (normalTrace (docFlowRun reqs)).queue.filterMap id,
      e.status ≠ "completed") := by
  refine ⟨rfl, rfl, rfl, rfl, rfl, ?_⟩
  have hq : (normalTrace (docFlowRun reqs)).queue.filterMap id
      = [initEvent, indexingEvent, failedEvent buildTypeErrorMsg] := rfl
  rw [hq]
  decide

/-! ## Claim C4 -/

theorem listLoop_emits (total : ℕ) :
    ∀ (reqs : List Requirement) (i : ℕ),
      emitsOf (listLoop total reqs i)
        = (reqs.zip (List.range' i reqs.length)).map fun p => listedEvent p.1 p.2 total := by
  intro reqs
  induction reqs with
  | nil => intro i; rfl
  | cons r rest ih =>
    intro i
    rw [listLoop, List.length_cons, List.range'_succ, List.zip_cons_cons, List.map_cons, ← ih]
    rfl

theorem emitsOf_append (a b : List Step) : emitsOf (a ++ b) = emitsOf a ++ emitsOf b :=
  List.filterMap_append a b _

/-- Claim C4: a run with no document over `N ≥ 1` consolidated requirements
produces exactly the `N` Not-Checked rows in order (each with empty
evidence pages), emits one progress event per requirement whose progress is
the linear formula `5 + int((i / total) * 90)` (binary64), always within
`[5, 95]` and exactly `95` for the last requirement, and ends with a
`completed` event carrying the summary
`total = N, compliant = non_compliant = partially_compliant = error = 0,
compliance_rate = 0`. -/
theorem noReportRun_not_checked (reqs : List Requirement) (h : 0 < reqs.length) :
    (noReportRun reqs).rows = reqs.map notCheckedRow ∧
    (∀ row ∈ (noReportRun reqs).rows, row.status = "Not Checked" ∧ row.evidencePages = []) ∧
    emitsOf (noReportRun reqs).steps
      = initEvent :: noReportStartEvent ::
        ((reqs.zip (List.range' 1 reqs.length)).map fun p => listedEvent p.1 p.2 reqs.length)
        ++ [completedEvent (reqs.map notCheckedRow) (noReportSummary reqs.length)] ∧
    (∀ r i, 0 < reqs.length →
      (listedEvent r i reqs.length).progress = some (5 + scaledProgress 90 i reqs.length)) ∧
    (∀ i, 1 ≤ i → i ≤ reqs.length →
      (5 : ℤ) ≤ 5 + scaledProgress 90 i reqs.length ∧
        5 + scaledProgress 90 i reqs.length ≤ 95) ∧
    (5 + scaledProgress 90 reqs.length reqs.length = 95) ∧
    noReportSummary reqs.length
      = { total := reqs.length, compliant := 0, nonCompliant := 0, semiCompliant := 0,
          errCount := 0, complianceRate := 0 } := by
  refine ⟨rfl, ?_, ?_, ?_, ?_, ?_, rfl⟩
  · intro row hrow
    rw [noReportRun] at hrow
    obtain ⟨r, _, hr⟩ := List.mem_map.mp hrow
    rw [← hr]
    exact ⟨rfl, rfl⟩
  · show emitsOf (Step.emit initEvent :: Step.emit noReportStartEvent ::
      listLoop reqs.length reqs 1 ++ [Step.persist "completed",
        Step.emit (completedEvent (reqs.map notCheckedRow)
          (noReportSummary (reqs.map notCheckedRow).length))]) = _
    have h1 : Step.emit initEvent :: Step.emit noReportStartEvent ::
        listLoop reqs.length reqs 1 ++ [Step.persist "completed",
          Step.emit (completedEvent (reqs.map notCheckedRow)
            (noReportSummary (reqs.map notCheckedRow).length))]
        = [Step.emit initEvent, Step.emit noReportStartEvent] ++
          listLoop reqs.length reqs 1 ++ [Step.persist "completed",
          Step.emit (completedEvent (reqs.map notCheckedRow)
            (noReportSummary (reqs.map notCheckedRow).length))] := by
      simp
    rw [h1, emitsOf_append, emitsOf_append, listLoop_emits, List.length_map]
    rfl
  · intro r i hpos
    rw [listedEvent, if_pos hpos]
  · intro i h1 h2
    constructor
    · have := scaledProgress_nonneg 90 i reqs.length
      omega
    · have hle := scaledProgress_le roundDouble_ninety h h2
      push_cast at hle
      omega
  · rw [scaledProgress_last roundDouble_ninety h]
    norm_num

/-- Witness for C4 on a one-requirement checklist. -/
theorem noReportRun_not_checked_witness :
    (noReportRun [sampleReq]).rows = [sampleReq].map notCheckedRow ∧
    (∀ row ∈ (noReportRun [sampleReq]).rows,
      row.status = "Not Checked" ∧ row.evidencePages = []) ∧
    emitsOf (noReportRun [sampleReq]).steps
      = initEvent :: noReportStartEvent ::
        (([sampleReq].zip (List.range' 1 1)).map fun p => listedEvent p.1 p.2 1)
        ++ [completedEvent ([sampleReq].map notCheckedRow) (noReportSummary 1)] ∧
    (∀ r i, 0 < [sampleReq].length →
      (listedEvent r i 1).progress = some (5 + scaledProgress 90 i 1)) ∧
    (∀ i, 1 ≤ i → i ≤ 1 →
      (5 : ℤ) ≤ 5 + scaledProgress 90 i 1 ∧ 5 + scaledProgress 90 i 1 ≤ 95) ∧
    (5 + scaledProgress 90 1 1 = 95) ∧
    noReportSummary 1
      = { total := 1, compliant := 0, nonCompliant := 0, semiCompliant := 0,
          errCount := 0, complianceRate := 0 } :=
  noReportRun_not_checked [sampleReq] (by decide)

/-! ## Claim C5 -/

/-- Claim C5 (code bug): the per-requirement progress events the claim
describes — `20 + floor((i / total) × 75)` after the `i`-th evaluation —
are never emitted: every document-supplied run raises `TypeError` at the
report-index build, before the per-requirement loop, so the only queue
events are the initial event (progress 2), the indexing event (progress 5)
and the terminal failure event (no `progress` field); and since
`20 + floor((i / total) × 75) ≥ 20` for every `1 ≤ i ≤ total`, no queue
event of any document run carries a value of the claimed form. -/
theorem documentRunEmitsNoRequirementProgress (reqs : List Requirement) :
    (normalTrace (docFlowRun reqs)).queue.filterMap id
      = [initEvent, indexingEvent, failedEvent buildTypeErrorMsg] ∧
    (failedEvent buildTypeErrorMsg).progress = none ∧
    (∀ i : ℕ, 1 ≤ i → i ≤ reqs.length →
      ∀ e ∈ (normalTrace (docFlowRun reqs)).queue.filterMap id,
        e.progress ≠ some (20 + ⌊((i : ℚ) / (reqs.length : ℚ)) * 75⌋)) := by
  refine ⟨rfl, rfl, ?_⟩
  intro i h1 h2 e he hp
  have hfl : (0 : ℤ) ≤ ⌊((i : ℚ) / (reqs.length : ℚ)) * 75⌋ :=
    Int.floor_nonneg.mpr (by positivity)
  have hq : (normalTrace (docFlowRun reqs)).queue.filterMap id
      = [initEvent, indexingEvent, failedEvent buildTypeErrorMsg] := rfl
  rw [hq] at he
  rcases List.mem_cons.mp he with h | h
  · rw [h, show initEvent.progress = some 2 from rfl] at hp
    have := Option.some.inj hp
    omega
  rcases List.mem_cons.mp h with h3 | h3
  · rw [h3, show indexingEvent.progress = some 5 from rfl] at hp
    have := Option.some.inj hp
    omega
  · rw [List.mem_singleton.mp h3,
      show (failedEvent buildTypeErrorMsg).progress = none from rfl] at hp
    exact absurd hp (by simp)

/-! ## Claim C2 -/

theorem countSuspends_append (a b : List Step) :
    countSuspends (a ++ b) = countSuspends a + countSuspends b :=
  List.countP_append _ _ _

theorem beforeSuspend_append_back :
    ∀ (l : List Step) (k : ℕ), ∃ t, l = beforeSuspend l k ++ t := by
  intro l
  induction l with
  | nil => intro k; exact ⟨[], rfl⟩
  | cons s0 rest ih =>
    intro k
    cases s0 with
    | emit e =>
      obtain ⟨t, ht⟩ := ih k
      exact ⟨t, by rw [beforeSuspend, List.cons_append, ← ht]⟩
    | persist st =>
      obtain ⟨t, ht⟩ := ih k
      exact ⟨t, by rw [beforeSuspend, List.cons_append, ← ht]⟩
    | suspend =>
      rcases k with _ | k
      · exact ⟨Step.suspend :: rest, rfl⟩
      · obtain ⟨t, ht⟩ := ih k
        exact ⟨t, by rw [beforeSuspend, List.cons_append, ← ht]⟩

/-- The guideline-only per-requirement loop publishes events only: it
contains no suspension point. -/
theorem listLoop_no_suspend (total : ℕ) :
    ∀ (reqs : List Requirement) (i : ℕ), countSuspends (listLoop total reqs i) = 0 := by
  intro reqs
  induction reqs with
  | nil => intro i; rfl
  | cons r rest ih =>
    intro i
    rw [listLoop]
    have h := ih (i + 1)
    simp only [countSuspends, List.countP_cons] at h ⊢
    simp [h]

/-- The guideline-only flow contains no genuine suspension point: it makes
no collaborator call (no `asyncio.to_thread` appears in services.py lines
116–152), so a cancellation signal is never delivered inside it. -/
theorem noReportRun_no_suspend (reqs : List Requirement) :
    countSuspends (noReportRun reqs).steps = 0 := by
  have hsteps : (noReportRun reqs).steps
      = (Step.emit initEvent :: Step.emit noReportStartEvent ::
          listLoop reqs.length reqs 1) ++
        [Step.persist "completed",
         Step.emit (completedEvent (reqs.map notCheckedRow)
           (noReportSummary (reqs.map notCheckedRow).length))] := rfl
  rw [hsteps, countSuspends_append]
  have h1 : countSuspends (Step.emit initEvent :: Step.emit noReportStartEvent ::
      listLoop reqs.length reqs 1) = 0 := by
    have h := listLoop_no_suspend reqs.length reqs 1
    simp only [countSuspends, List.countP_cons] at h ⊢
    simp [h]
  have h2 : countSuspends [Step.persist "completed",
      Step.emit (completedEvent (reqs.map notCheckedRow)
        (noReportSummary (reqs.map notCheckedRow).length))] = 0 := rfl
  omega

/-- Claim C2 amended: the only genuine suspension point of any run is the
document flow's report-index build await (the guideline-only flow contains
none), and it precedes every terminal event.  A cancellation signal
delivered there makes the routine mark the task `failed` with the message
"Task cancelled by user." (note the trailing period in services.py lines
202 and 205), push that terminal event and then the end-of-stream sentinel
as the last two queue items; every earlier queue event is an ordinary
`processing` event, no queue event is ever `completed`, and no durable
record of any kind — in particular none marked `completed` — has been
written. -/
theorem cancelTrace_terminal_no_completed (reqs : List Requirement) (k : ℕ)
    (hk : k < countSuspends (docFlowRun reqs).steps) :
    countSuspends (docFlowRun reqs).steps = 1 ∧
    countSuspends (noReportRun reqs).steps = 0 ∧
    (cancelTrace (docFlowRun reqs) k).dbUpdate
      = some ("failed", "Task cancelled by user.") ∧
    (cancelTrace (docFlowRun reqs) k).persisted = [] ∧
    (cancelTrace (docFlowRun reqs) k).queue
      = [some initEvent, some indexingEvent, some cancelEvent, none] ∧
    (∀ e ∈ emitsOf (beforeSuspend (docFlowRun reqs).steps k),
      e.status = "processing") ∧
    (∀ e ∈ (cancelTrace (docFlowRun reqs) k).queue.filterMap id,
      e.status ≠ "completed") ∧
    cancelEvent.status = "failed" ∧ cancelEvent.message = "Task cancelled by user." := by
  have hc : countSuspends (docFlowRun reqs).steps = 1 := rfl
  have hk0 : k = 0 := by rw [hc] at hk; omega
  subst hk0
  have h1 : emitsOf (beforeSuspend (docFlowRun reqs).steps 0)
      = [initEvent, indexingEvent] := rfl
  have h2 : (cancelTrace (docFlowRun reqs) 0).queue.filterMap id
      = [initEvent, indexingEvent, cancelEvent] := rfl
  refine ⟨rfl, noReportRun_no_suspend reqs, rfl, rfl, rfl, ?_, ?_, rfl, rfl⟩
  · rw [h1]; decide
  · rw [h2]; decide

/-- Counterexample to claim C2 as stated: the cancellation message written
to the task registry and carried by the terminal event is
`"Task cancelled by user."` — with a trailing period — not the claim's
exact string `"Task cancelled by user"`. -/
theorem cancelMessage_has_trailing_period :
    (cancelTrace (docFlowRun [sampleReq]) 0).dbUpdate
      = some ("failed", "Task cancelled by user.") ∧
    cancelEvent.message = "Task cancelled by user." ∧
    "Task cancelled by user." ≠ "Task cancelled by user" := by
  exact ⟨rfl, rfl, by decide⟩

/-- Witness for the amended C2: cancelling a one-requirement document run
at its only suspension point, the report-index build await. -/
theorem cancelTrace_terminal_no_completed_witness :
    countSuspends (docFlowRun [sampleReq]).steps = 1 ∧
    countSuspends (noReportRun [sampleReq]).steps = 0 ∧
    (cancelTrace (docFlowRun [sampleReq]) 0).dbUpdate
      = some ("failed", "Task cancelled by user.") ∧
    (cancelTrace (docFlowRun [sampleReq]) 0).persisted = [] ∧
    (cancelTrace (docFlowRun [sampleReq]) 0).queue
      = [some initEvent, some indexingEvent, some cancelEvent, none] ∧
    (∀ e ∈ emitsOf (beforeSuspend (docFlowRun [sampleReq]).steps 0),
      e.status = "processing") ∧
    (∀ e ∈ (cancelTrace (docFlowRun [sampleReq]) 0).queue.filterMap id,
      e.status ≠ "completed") ∧
    cancelEvent.status = "failed" ∧ cancelEvent.message = "Task cancelled by user." :=
  cancelTrace_terminal_no_completed [sampleReq] 0 (by decide)

/-! ## Claim C7 -/

/-- The progress values carried by the events of a step list, in order. -/
def psOf (steps : List Step) : List ℤ := (emitsOf steps).filterMap Event.progress

theorem psOf_append (a b : List Step) : psOf (a ++ b) = psOf a ++ psOf b := by
  rw [psOf, emitsOf_append, List.filterMap_append]
  rfl

theorem chainLe_append_bounded {a b : List ℤ} {m : ℤ}
    (ha : a.Chain' (· ≤ ·)) (hb : b.Chain' (· ≤ ·))
    (hma : ∀ x ∈ a, x ≤ m) (hmb : ∀ y ∈ b, m ≤ y) : (a ++ b).Chain' (· ≤ ·) := by
  apply List.chain'_append.mpr
  refine ⟨ha, hb, ?_⟩
  intro x hx y hy
  exact le_trans (hma x (List.mem_of_mem_getLast? hx)) (hmb y (List.mem_of_mem_head? hy))

/-- Chain and bounds for the progress values of the guideline-only
per-requirement loop. -/
theorem listLoop_ps_chain (total : ℕ) :
    ∀ (reqs : List Requirement) (i : ℕ), 1 ≤ i → i + reqs.length ≤ total + 1 →
      (psOf (listLoop total reqs i)).Chain' (· ≤ ·) ∧
      (∀ x ∈ psOf (listLoop total reqs i), 5 ≤ x ∧ x ≤ 95) ∧
      (∀ y ∈ (psOf (listLoop total reqs i)).head?,
        (5 : ℤ) + scaledProgress 90 i total ≤ y) := by
  intro reqs
  induction reqs with
  | nil =>
    intro i _ _
    exact ⟨by simp [listLoop, psOf, emitsOf], by simp [listLoop, psOf, emitsOf],
      by simp [listLoop, psOf, emitsOf]⟩
  | cons r rest ih =>
    intro i h1 h2
    simp only [List.length_cons] at h2
    have hit : i ≤ total := by omega
    have htot : 0 < total := by omega
    obtain ⟨ihC, ihB, ihH⟩ := ih (i + 1) (by omega) (by omega)
    have hps : psOf (listLoop total (r :: rest) i)
        = ((5 : ℤ) + scaledProgress 90 i total) :: psOf (listLoop total rest (i + 1)) := by
      rw [listLoop]
      show (match (listedEvent r i total).progress with
        | some p => p :: psOf (listLoop total rest (i + 1))
        | none => psOf (listLoop total rest (i + 1))) = _
      rw [show (listedEvent r i total).progress
          = some (if 0 < total then 5 + scaledProgress 90 i total else 100) from rfl,
        if_pos htot]
    rw [hps]
    have hb1 : (5 : ℤ) ≤ 5 + scaledProgress 90 i total := by
      have := scaledProgress_nonneg 90 i total
      omega
    have hb2 : (5 : ℤ) + scaledProgress 90 i total ≤ 95 := by
      have := scaledProgress_le roundDouble_ninety htot hit
      push_cast at this
      omega
    refine ⟨?_, ?_, ?_⟩
    · refine List.chain'_cons'.mpr ⟨?_, ihC⟩
      intro y hy
      have hmono := scaledProgress_mono (m := 90) (t := total) (by omega : i ≤ i + 1)
      have := ihH y hy
      omega
    · intro x hx
      rcases List.mem_cons.mp hx with h | h
      · rw [h]; exact ⟨hb1, hb2⟩
      · exact ihB x h
    · intro y hy
      simp only [List.head?_cons, Option.mem_def, Option.some.injEq] at hy
      omega

theorem filterMap_id_map_some (l : List Event) : (l.map some).filterMap id = l := by
  rw [List.filterMap_map]
  exact List.filterMap_some l

theorem progressSeq_normalTrace (r : RunOut) :
    progressSeq (normalTrace r).queue = psOf r.steps := by
  rcases habort : r.abortMsg with _ | m
  · rw [progressSeq, normalTrace, habort]
    rw [List.append_nil, List.filterMap_append, filterMap_id_map_some]
    rw [show List.filterMap id [(none : Option Event)] = [] from rfl, List.append_nil]
    rfl
  · simp only [progressSeq, normalTrace, habort, List.filterMap_append,
      filterMap_id_map_some,
      show List.filterMap id [some (failedEvent m)] = [failedEvent m] from rfl,
      show List.filterMap Event.progress [failedEvent m] = ([] : List ℤ) from rfl,
      show List.filterMap id [(none : Option Event)] = ([] : List Event) from rfl,
      List.filterMap_nil, List.append_nil, psOf]

theorem progressSeq_cancelTrace (r : RunOut) (k : ℕ) :
    progressSeq (cancelTrace r k).queue = psOf (beforeSuspend r.steps k) := by
  rw [progressSeq, cancelTrace]
  rw [List.filterMap_append, filterMap_id_map_some]
  rw [show List.filterMap id [some cancelEvent, (none : Option Event)] = [cancelEvent]
    from rfl]
  rw [List.filterMap_append]
  rw [show List.filterMap Event.progress [cancelEvent] = [] from rfl, List.append_nil]
  rfl

/-- The progress sequence of a document-supplied run — `[2, 5]`, emitted
before the failing report-index build await (the terminal failure event
carries no `progress`) — is non-decreasing. -/
theorem chain_psOf_docFlowRun (reqs : List Requirement) :
    (psOf (docFlowRun reqs).steps).Chain' (· ≤ ·) := by
  rw [show psOf (docFlowRun reqs).steps = [2, 5] from rfl]
  norm_num [List.chain'_cons, List.chain'_singleton]

/-- The full progress sequence of a guideline-only run is non-decreasing. -/
theorem chain_psOf_noReportRun (reqs : List Requirement) :
    (psOf (noReportRun reqs).steps).Chain' (· ≤ ·) := by
  obtain ⟨hLC, hLB, _⟩ := listLoop_ps_chain reqs.length reqs 1 (by omega) (by omega)
  have hsteps : (noReportRun reqs).steps
      = (Step.emit initEvent :: Step.emit noReportStartEvent ::
          listLoop reqs.length reqs 1) ++
        [Step.persist "completed",
         Step.emit (completedEvent (reqs.map notCheckedRow)
           (noReportSummary (reqs.map notCheckedRow).length))] := rfl
  rw [hsteps, psOf_append]
  have hhead : psOf (Step.emit initEvent :: Step.emit noReportStartEvent ::
      listLoop reqs.length reqs 1) = 2 :: 5 :: psOf (listLoop reqs.length reqs 1) := rfl
  rw [hhead]
  apply chainLe_append_bounded (m := 95)
  · refine List.chain'_cons'.mpr ⟨?_, List.chain'_cons'.mpr ⟨?_, hLC⟩⟩
    · intro y hy
      simp only [List.head?_cons, Option.mem_def, Option.some.injEq] at hy
      omega
    · intro y hy
      have := hLB y (List.mem_of_mem_head? hy)
      omega
  · rw [show psOf [Step.persist "completed",
      Step.emit (completedEvent (reqs.map notCheckedRow)
        (noReportSummary (reqs.map notCheckedRow).length))] = [100] from rfl]
    simp
  · intro x hx
    rcases List.mem_cons.mp hx with h | h
    · rw [h]; decide
    rcases List.mem_cons.mp h with h2 | h2
    · rw [h2]; decide
    · exact (hLB x h2).2
  · rw [show psOf [Step.persist "completed",
      Step.emit (completedEvent (reqs.map notCheckedRow)
        (noReportSummary (reqs.map notCheckedRow).length))] = [100] from rfl]
    intro y hy
    rw [List.mem_singleton.mp hy]
    decide

/-- Claim C7: in every run — guideline-only (the initial event, the start
event, one event per requirement at `5 + int((i / total) * 90)`, the final
`completed` event at 100), document-supplied (the initial and indexing
events, then the terminal `TypeError` failure event, which carries no
progress value), and a document run cancelled at any suspension point
(the terminal cancellation event carries no progress value) — the
sequence of `progress` values carried by the events pushed onto the
task's queue is non-decreasing until the terminal state. -/
theorem progress_monotone (reqs : List Requirement) (k : ℕ) :
    (progressSeq (normalTrace (noReportRun reqs)).queue).Chain' (· ≤ ·) ∧
    (progressSeq (normalTrace (docFlowRun reqs)).queue).Chain' (· ≤ ·) ∧
    (progressSeq (cancelTrace (docFlowRun reqs) k).queue).Chain' (· ≤ ·) := by
  refine ⟨?_, ?_, ?_⟩
  · rw [progressSeq_normalTrace]
    exact chain_psOf_noReportRun reqs
  · rw [progressSeq_normalTrace]
    exact chain_psOf_docFlowRun reqs
  · rw [progressSeq_cancelTrace]
    obtain ⟨t, ht⟩ := beforeSuspend_append_back (docFlowRun reqs).steps k
    have hfull := chain_psOf_docFlowRun reqs
    rw [ht, psOf_append] at hfull
    exact (List.chain'_append.mp hfull).1

end DocMatcher
